import Mathlib

/-!
Verification of the CrabSQL storage engine and SQL executor.

This development shallowly embeds the parts of `src/store.rs` and
`src/sql.rs` that the verified properties are about:

* the MVCC read view (`ReadView::is_visible`) and version-chain read
  (`Store::get_row_mvcc`),
* the key codec (`Store::db_key`, `table_key`, `row_key_mvcc`,
  `index_key`, `auto_inc_key`) and `Store::drop_database`,
* the commit-time watermark write in `Store::apply_row_changes_mvcc`
  and the recovery read in `Store::open`,
* the auto-increment counter (`allocate_auto_increment`,
  `bump_auto_increment_next`),
* the row lock manager (`LockManager::lock/unlock/unlock_all`),
* `handle_insert`'s per-statement row staging, and
* the grouped-aggregate accumulators (`CountAcc`, `SumAcc`) of
  `execute_select_from_rows`.

Conventions: Rust `u64` transaction ids are modelled as `Nat`
(allocation is a monotone counter far from overflow), `i64` values as
`Int` with the `i64` bounds made explicit where the source saturates,
and byte strings (`Vec<u8>`) as `List Nat`.  The cell fragment modelled
is {Null, Int, Text}; the claims under verification do not touch the
Float/Date/DateTime parsing paths of `coerce_cell`.
-/

namespace CrabSQL

/-- Errors of `MiniError` (src/error.rs) that the modelled code paths
can produce.  Message strings are dropped; only the variant matters. -/
inductive MiniErr where
  | invalid : MiniErr
  | notFound : MiniErr
  | lockWaitTimeout : MiniErr
  deriving Repr, DecidableEq

/-- The modelled fragment of `Cell` (src/model.rs). -/
inductive Cell where
  | null : Cell
  | int : Int → Cell
  | text : String → Cell
  deriving Repr, DecidableEq

/-- Source `Row` (src/model.rs): cells positionally aligned with the table's
columns. -/
abbrev Row := List Cell

/-- Source `ReadView` (src/store.rs, lines 72-83): `visible_up_to`, the
`active` snapshot, and the optional `own_tx_id`.  The `BTreeSet` of
active transaction ids is modelled as a list. -/
structure ReadView where
  visibleUpTo : Nat
  active : List Nat
  ownTxId : Option Nat
  deriving Repr, DecidableEq

/-- Source `ReadView::is_visible` (src/store.rs, lines 86-99), translated
branch by branch. -/
def ReadView.isVisible (view : ReadView) (txId : Nat) : Bool :=
  if view.ownTxId = some txId then true
  else if view.visibleUpTo ≤ txId then false
  else if view.active.contains txId then false
  else true

/-- One stored row version for a fixed `(db, table, pk)`: the writer
transaction id parsed back out of the key suffix, and the serialized
`Option<Row>` payload (`none` is a tombstone). -/
structure Version where
  tx : Nat
  val : Option Row
  deriving Repr, DecidableEq

/-- Source `Store::get_row_mvcc` (src/store.rs, lines 419-444) restricted to
the version chain of one `(db, table, pk)`: walk the versions in
prefix-scan order and return the payload of the first one whose writer
is visible; `none` if the scan is exhausted.  The key codec appends
`u64::MAX - tx_id`, so the scan order is strictly decreasing in `tx`;
that fact is a hypothesis of the theorems below. -/
def getRowMvcc (view : ReadView) : List Version → Option Row
  | [] => none
  | v :: rest => if view.isVisible v.tx then v.val else getRowMvcc view rest

/-- Scan order of the version chain produced by `row_key_mvcc`'s
inverted-tx suffix: writer tx ids strictly decreasing. -/
def NewestFirst (versions : List Version) : Prop :=
  versions.Pairwise (fun a b => b.tx < a.tx)

instance (versions : List Version) : Decidable (NewestFirst versions) :=
  inferInstanceAs (Decidable (versions.Pairwise _))

/-- C2: `ReadView::is_visible` returns true iff the id is the view's
own transaction, or it is below `visible_up_to` and not in the active
snapshot. -/
theorem isVisible_iff (view : ReadView) (t : Nat) :
    view.isVisible t = true ↔
      view.ownTxId = some t ∨ (t < view.visibleUpTo ∧ t ∉ view.active) := by
  have hc : view.active.contains t = true ↔ t ∈ view.active := by simp
  unfold ReadView.isVisible
  by_cases hown : view.ownTxId = some t
  · simp [hown]
  · by_cases hup : view.visibleUpTo ≤ t
    · simp only [if_neg hown, if_pos hup]
      constructor
      · intro h
        exact absurd h (by simp)
      · rintro (h | ⟨h1, _⟩)
        · exact absurd h hown
        · omega
    · by_cases hact : t ∈ view.active
      · simp only [if_neg hown, if_neg hup, if_pos (hc.mpr hact)]
        constructor
        · intro h
          exact absurd h (by simp)
        · rintro (h | ⟨_, h2⟩)
          · exact absurd h hown
          · exact absurd hact h2
      · simp only [if_neg hown, if_neg hup,
          if_neg (fun h => hact (hc.mp h))]
        exact ⟨fun _ => Or.inr ⟨by omega, hact⟩, fun _ => trivial⟩

/-- Helper: in a newest-first chain whose head is visible, the head's
tx bounds every element's tx. -/
theorem NewestFirst.head_max {v : Version} {rest : List Version}
    (h : NewestFirst (v :: rest)) :
    ∀ w ∈ v :: rest, w.tx ≤ v.tx := by
  intro w hw
  rcases List.mem_cons.mp hw with rfl | hw
  · exact le_refl _
  · exact le_of_lt ((List.pairwise_cons.mp h).1 w hw)

theorem NewestFirst.tail {v : Version} {rest : List Version}
    (h : NewestFirst (v :: rest)) : NewestFirst rest :=
  (List.pairwise_cons.mp h).2

/-- C1: on a newest-first version chain, `get_row_mvcc` serves the
version with the greatest visible writer tx (its payload; a tombstone
payload is `none`), and returns `none` when no version is visible.  No
older visible version is ever served. -/
theorem getRowMvcc_newest_visible (view : ReadView) (versions : List Version)
    (hsorted : NewestFirst versions) :
    (∀ v ∈ versions, view.isVisible v.tx = true →
      ∃ w ∈ versions, view.isVisible w.tx = true ∧
        (∀ u ∈ versions, view.isVisible u.tx = true → u.tx ≤ w.tx) ∧
        getRowMvcc view versions = w.val) ∧
    ((∀ v ∈ versions, view.isVisible v.tx = false) →
      getRowMvcc view versions = none) := by
  induction versions with
  | nil =>
    constructor
    · intro v hv
      exact absurd hv (List.not_mem_nil v)
    · intro _
      rfl
  | cons hd tl ih =>
    constructor
    · intro v hv hvis
      by_cases hhd : view.isVisible hd.tx
      · refine ⟨hd, List.mem_cons_self hd tl, hhd, ?_, ?_⟩
        · intro u hu _
          exact hsorted.head_max u hu
        · simp [getRowMvcc, hhd]
      · have hvtl : v ∈ tl := by
          rcases List.mem_cons.mp hv with rfl | h
          · exact absurd hvis (by simpa using hhd)
          · exact h
        obtain ⟨w, hwmem, hwvis, hwmax, hweq⟩ :=
          (ih hsorted.tail).1 v hvtl hvis
        refine ⟨w, List.mem_cons_of_mem hd hwmem, hwvis, ?_, ?_⟩
        · intro u hu huvis
          rcases List.mem_cons.mp hu with rfl | h
          · exact absurd huvis (by simpa using hhd)
          · exact hwmax u h huvis
        · simpa [getRowMvcc, hhd] using hweq
    · intro hnone
      have hhd : view.isVisible hd.tx = false :=
        hnone hd (List.mem_cons_self hd tl)
      have := (ih hsorted.tail).2 fun v hv => hnone v (List.mem_cons_of_mem hd hv)
      simp [getRowMvcc, hhd, this]

/-- Witness for C1 at a concrete chain: versions written by tx 5 and
tx 2, read under a view that admits only tx 2. -/
theorem getRowMvcc_newest_visible_witness :
    NewestFirst [⟨5, some [Cell.int 1]⟩, ⟨2, some [Cell.int 0]⟩] ∧
    (∀ v ∈ [(⟨5, some [Cell.int 1]⟩ : Version), ⟨2, some [Cell.int 0]⟩],
        (ReadView.mk 4 [] none).isVisible v.tx = true →
      ∃ w ∈ [(⟨5, some [Cell.int 1]⟩ : Version), ⟨2, some [Cell.int 0]⟩],
        (ReadView.mk 4 [] none).isVisible w.tx = true ∧
        (∀ u ∈ [(⟨5, some [Cell.int 1]⟩ : Version), ⟨2, some [Cell.int 0]⟩],
          (ReadView.mk 4 [] none).isVisible u.tx = true → u.tx ≤ w.tx) ∧
        getRowMvcc (ReadView.mk 4 [] none)
          [⟨5, some [Cell.int 1]⟩, ⟨2, some [Cell.int 0]⟩] = w.val) :=
  ⟨by decide,
   (getRowMvcc_newest_visible (ReadView.mk 4 [] none)
     [⟨5, some [Cell.int 1]⟩, ⟨2, some [Cell.int 0]⟩] (by decide)).1⟩

/-! Section: Lock manager (src/store.rs, lines 854-906)

`LockState` holds `by_key : HashMap<Vec<u8>, u32>` and
`by_owner : HashMap<u32, HashSet<Vec<u8>>>`.  Both hash maps are
modelled extensionally as functions; the `HashSet` of keys as its
membership predicate.  (The source's removal of an owner's entry when
its key set becomes empty is invisible in this representation: an
absent entry and an empty set are both the constantly-false
predicate.) -/

/-- A row key (`Vec<u8>`). -/
abbrev LockKey := List Nat

/-- Source `LockState` (src/store.rs, lines 859-863). -/
structure LockState where
  byKey : LockKey → Option Nat
  byOwner : Nat → LockKey → Bool

/-- The lock table with no locks held. -/
def LockState.empty : LockState :=
  { byKey := fun _ => none, byOwner := fun _ _ => false }

/-- Source `LockManager::lock` (src/store.rs, lines 866-879).  Returns the
updated state and `Ok(true)` (newly acquired), `Ok(false)` (reentrant),
or `Err(LockWaitTimeout)`. -/
def LockState.lock (st : LockState) (owner : Nat) (key : LockKey) :
    LockState × Except MiniErr Bool :=
  match st.byKey key with
  | none =>
      ({ byKey := fun k => if k = key then some owner else st.byKey k,
         byOwner := fun o k =>
           if o = owner ∧ k = key then true else st.byOwner o k },
       Except.ok true)
  | some current =>
      if current = owner then (st, Except.ok false)
      else (st, Except.error MiniErr.lockWaitTimeout)

/-- Source `LockManager::unlock` (src/store.rs, lines 881-893): a no-op unless
`owner` currently holds `key`. -/
def LockState.unlock (st : LockState) (owner : Nat) (key : LockKey) :
    LockState :=
  if st.byKey key = some owner then
    { byKey := fun k => if k = key then none else st.byKey k,
      byOwner := fun o k =>
        if o = owner ∧ k = key then false else st.byOwner o k }
  else st

/-- Source `LockManager::unlock_all` (src/store.rs, lines 895-905): drop the
owner's reverse-index entry and remove each of its keys from `by_key`
when that key is still recorded as held by this owner. -/
def LockState.unlockAll (st : LockState) (owner : Nat) : LockState :=
  { byKey := fun k =>
      if st.byOwner owner k ∧ st.byKey k = some owner then none
      else st.byKey k,
    byOwner := fun o k => if o = owner then false else st.byOwner o k }

/-- The two-way consistency invariant of the lock table: a key maps to
`o` in the forward map exactly when it is in `o`'s reverse set. -/
def LockState.Consistent (st : LockState) : Prop :=
  ∀ k o, st.byKey k = some o ↔ st.byOwner o k = true

/-- C5: `lock(owner, key)` on an unheld key succeeds as newly acquired
and records the owner; on a key held by the same owner it reports
reentrant and leaves the state unchanged; on a key held by another
owner it fails with `LockWaitTimeout` and leaves the state unchanged. -/
theorem lock_spec (st : LockState) (owner : Nat) (key : LockKey) :
    (st.byKey key = none →
      (st.lock owner key).2 = Except.ok true ∧
      ((st.lock owner key).1.byKey key = some owner ∧
        (st.lock owner key).1.byOwner owner key = true)) ∧
    (st.byKey key = some owner →
      (st.lock owner key).2 = Except.ok false ∧
      (st.lock owner key).1 = st) ∧
    (∀ other, st.byKey key = some other → other ≠ owner →
      (st.lock owner key).2 = Except.error MiniErr.lockWaitTimeout ∧
      (st.lock owner key).1 = st) := by
  refine ⟨?_, ?_, ?_⟩
  · intro h
    simp [LockState.lock, h]
  · intro h
    simp [LockState.lock, h]
  · intro other h hne
    simp [LockState.lock, h, hne]

/-- Witness for C5: locking a fresh key in the empty table. -/
theorem lock_spec_witness :
    (LockState.empty.byKey [0] = none) ∧
    ((LockState.empty.lock 1 [0]).2 = Except.ok true ∧
      ((LockState.empty.lock 1 [0]).1.byKey [0] = some 1 ∧
        (LockState.empty.lock 1 [0]).1.byOwner 1 [0] = true)) :=
  ⟨rfl, (lock_spec LockState.empty 1 [0]).1 rfl⟩

/-- C9: every lock-manager operation preserves the two-way consistency
invariant; under it each key has at most one holder; and `unlock` /
`unlock_all` by a session that does not hold a key never remove another
session's lock on that key. -/
theorem lockManager_consistent (st : LockState) (owner : Nat)
    (key : LockKey) (hinv : st.Consistent) :
    LockState.Consistent (st.lock owner key).1 ∧
    LockState.Consistent (st.unlock owner key) ∧
    LockState.Consistent (st.unlockAll owner) ∧
    (∀ k o o', st.byOwner o k = true → st.byOwner o' k = true → o = o') ∧
    (∀ k, st.byKey k ≠ some owner →
      (st.unlock owner key).byKey k = st.byKey k ∧
      (st.unlockAll owner).byKey k = st.byKey k) := by
  have hUAk : ∀ k, (st.unlockAll owner).byKey k =
      if st.byOwner owner k ∧ st.byKey k = some owner then none
      else st.byKey k := fun _ => rfl
  have hUAo : ∀ o k, (st.unlockAll owner).byOwner o k =
      if o = owner then false else st.byOwner o k := fun _ _ => rfl
  refine ⟨?_, ?_, ?_, ?_, ?_⟩
  · intro k o
    cases hk : st.byKey key with
    | none =>
      have hredK : (st.lock owner key).1.byKey k =
          if k = key then some owner else st.byKey k := by
        simp [LockState.lock, hk]
      have hredO : (st.lock owner key).1.byOwner o k =
          if o = owner ∧ k = key then true else st.byOwner o k := by
        simp [LockState.lock, hk]
      rw [hredK, hredO]
      by_cases hkey : k = key
      · rw [if_pos hkey]
        by_cases ho : o = owner
        · rw [if_pos ⟨ho, hkey⟩, ho]
          simp
        · rw [if_neg (fun hc => ho hc.1)]
          constructor
          · intro h
            exact absurd (Option.some.inj h).symm ho
          · intro h
            have := (hinv k o).mpr h
            rw [hkey, hk] at this
            exact absurd this (by simp)
      · rw [if_neg hkey, if_neg (fun hc => hkey hc.2)]
        exact hinv k o
    | some current =>
      have hred : (st.lock owner key).1 = st := by
        by_cases hcur : current = owner
        · simp [LockState.lock, hk, hcur]
        · simp [LockState.lock, hk, hcur]
      rw [hred]
      exact hinv k o
  · intro k o
    by_cases hheld : st.byKey key = some owner
    · have hredK : (st.unlock owner key).byKey k =
          if k = key then none else st.byKey k := by
        simp [LockState.unlock, hheld]
      have hredO : (st.unlock owner key).byOwner o k =
          if o = owner ∧ k = key then false else st.byOwner o k := by
        simp [LockState.unlock, hheld]
      rw [hredK, hredO]
      by_cases hkey : k = key
      · rw [if_pos hkey]
        by_cases ho : o = owner
        · rw [if_pos ⟨ho, hkey⟩]
          simp
        · rw [if_neg (fun hc => ho hc.1)]
          constructor
          · intro h
            exact absurd h (by simp)
          · intro h
            have := (hinv k o).mpr h
            rw [hkey, hheld] at this
            exact absurd (Option.some.inj this).symm ho
      · rw [if_neg hkey, if_neg (fun hc => hkey hc.2)]
        exact hinv k o
    · have hred : st.unlock owner key = st := by
        simp [LockState.unlock, hheld]
      rw [hred]
      exact hinv k o
  · intro k o
    rw [hUAk k, hUAo o k]
    by_cases ho : o = owner
    · rw [if_pos ho]
      constructor
      · intro h
        by_cases hcond : st.byOwner owner k ∧ st.byKey k = some owner
        · rw [if_pos hcond] at h
          exact absurd h (by simp)
        · rw [if_neg hcond] at h
          rw [ho] at h
          exact absurd ⟨(hinv k owner).mp h, h⟩ hcond
      · intro h
        exact absurd h (by simp)
    · rw [if_neg ho]
      by_cases hcond : st.byOwner owner k ∧ st.byKey k = some owner
      · rw [if_pos hcond]
        constructor
        · intro h
          exact absurd h (by simp)
        · intro h
          have := (hinv k o).mpr h
          rw [hcond.2] at this
          exact absurd (Option.some.inj this).symm ho
      · rw [if_neg hcond]
        exact hinv k o
  · intro k o o' h1 h2
    have e1 := (hinv k o).mpr h1
    have e2 := (hinv k o').mpr h2
    rw [e1] at e2
    exact Option.some.inj e2
  · intro k hk
    constructor
    · by_cases hheld : st.byKey key = some owner
      · have hredK : (st.unlock owner key).byKey k =
            if k = key then none else st.byKey k := by
          simp [LockState.unlock, hheld]
        rw [hredK]
        by_cases hkey : k = key
        · rw [hkey] at hk
          exact absurd hheld hk
        · rw [if_neg hkey]
      · simp [LockState.unlock, hheld]
    · rw [hUAk k]
      exact if_neg (fun hcond => hk hcond.2)

/-- Witness for C9: the empty lock table is consistent, and the
preservation facts hold there. -/
theorem lockManager_consistent_witness :
    LockState.Consistent ((LockState.empty.lock 1 [0]).1) :=
  (lockManager_consistent LockState.empty 1 [0]
    (fun _ _ => by simp [LockState.empty])).1

/-! Section: Grouped aggregates (src/sql.rs, lines 3505-3700)

`execute_select_from_rows` groups input rows by the evaluated GROUP BY
expressions (`GroupKey(Vec<Cell>)`), creating each group's accumulators
on first encounter with `or_insert_with` and then calling
`add(evaluated_arg)` per row.  When there are no input rows and no
GROUP BY expressions, one implicit group keyed by the empty vector is
pre-seeded (`CountAcc(0)`, `SumAcc(Cell::Null)`, ...).  The group map
is modelled as an association list in encounter order, which preserves
the per-key accumulator semantics of the `HashMap`. -/

/-- Source `GroupKey(Vec<Cell>)` of src/sql.rs. -/
abbrev GroupKey := List Cell

/-- Source `Cell::add` (src/model.rs) on the modelled fragment: only
Int+Int is defined; other combinations yield `none`.  (The source's
Float combinations are outside the fragment, and its `a + b` is the
mathematical sum for the values the claims exercise.) -/
def Cell.add : Cell → Cell → Option Cell
  | Cell.int a, Cell.int b => some (Cell.int (a + b))
  | _, _ => none

/-- Source `SumAcc::add` (src/sql.rs, lines 3533-3547): Null inputs are
skipped; a defined `Cell::add` replaces the accumulator, an undefined
one leaves it unchanged. -/
def sumAdd (acc v : Cell) : Cell :=
  if v = Cell.null then acc
  else
    match acc.add v with
    | some r => r
    | none => acc

/-- Source `CountAcc::add` (src/sql.rs, lines 3520-3531): the argument is
bound as `_v` and ignored — the count is incremented for every call,
Null or not. -/
def countAdd (acc : Int) (_v : Cell) : Int := acc + 1

/-- Insert one row's contribution into the encounter-ordered group
list: the existing group's accumulator is updated, or a new group is
created from `init` (the `or_insert_with` closure) and updated. -/
def insGroup {α : Type} (f : α → Cell → α) (init : α) :
    List (GroupKey × α) → GroupKey → Cell → List (GroupKey × α)
  | [], k, v => [(k, f init v)]
  | (k', a) :: rest, k, v =>
      if k' = k then (k', f a v) :: rest
      else (k', a) :: insGroup f init rest k v

/-- The grouping loop of `execute_select_from_rows` specialised to one
aggregate: fold every (group key, evaluated argument) row into the
group list. -/
def foldGroups {α : Type} (f : α → Cell → α) (init : α)
    (rows : List (GroupKey × Cell)) : List (GroupKey × α) :=
  rows.foldl (fun gs r => insGroup f init gs r.1 r.2) []

/-- Association-list lookup on the group list. -/
def lookupG {α : Type} : List (GroupKey × α) → GroupKey → Option α
  | [], _ => none
  | (k', a) :: rest, k => if k' = k then some a else lookupG rest k

/-- The grouped execution for a single `SUM(expr)` aggregate
(src/sql.rs, lines 3533-3547, 3602-3660): with no input rows and no
GROUP BY, the implicit group is seeded with `SumAcc(Cell::Null)` and
finishes to Null; otherwise every group created by the row loop starts
at `SumAcc(Cell::Int(0))`. -/
def executeSumAgg (rows : List (GroupKey × Cell)) (hasGroupBy : Bool) :
    List (GroupKey × Cell) :=
  if rows = [] ∧ hasGroupBy = false then [([], Cell.null)]
  else foldGroups sumAdd (Cell.int 0) rows

/-- The grouped execution for a single `COUNT(expr)` aggregate with a
non-wildcard argument (src/sql.rs, lines 3520-3531, 3662-3670): the
executor evaluates the argument and calls `CountAcc::add` on it. -/
def executeCountExpr (rows : List (GroupKey × Cell)) :
    List (GroupKey × Int) :=
  foldGroups countAdd 0 rows

/-- The evaluated aggregate arguments contributed to group `k`. -/
def groupVals (rows : List (GroupKey × Cell)) (k : GroupKey) : List Cell :=
  (rows.filter (fun r => r.1 = k)).map Prod.snd

theorem lookupG_insGroup_self {α : Type} (f : α → Cell → α) (init : α)
    (gs : List (GroupKey × α)) (k : GroupKey) (v : Cell) :
    lookupG (insGroup f init gs k v) k =
      some (match lookupG gs k with
            | some a => f a v
            | none => f init v) := by
  induction gs with
  | nil => simp [insGroup, lookupG]
  | cons hd tl ih =>
    obtain ⟨k', a⟩ := hd
    by_cases hk : k' = k
    · simp [insGroup, lookupG, hk]
    · simp [insGroup, lookupG, hk, ih]

theorem lookupG_insGroup_ne {α : Type} (f : α → Cell → α) (init : α)
    (gs : List (GroupKey × α)) (k k' : GroupKey) (v : Cell)
    (h : k' ≠ k) :
    lookupG (insGroup f init gs k v) k' = lookupG gs k' := by
  induction gs with
  | nil =>
    simp only [insGroup, lookupG]
    rw [if_neg (fun hc : k = k' => h hc.symm)]
  | cons hd tl ih =>
    obtain ⟨k'', a⟩ := hd
    by_cases hk : k'' = k
    · subst hk
      simp only [insGroup, if_pos rfl, lookupG]
      rw [if_neg (fun hc : k'' = k' => h hc.symm),
        if_neg (fun hc : k'' = k' => h hc.symm)]
    · simp only [insGroup, if_neg hk, lookupG]
      by_cases hk' : k'' = k'
      · simp [hk']
      · simp [hk', ih]

theorem lookupG_foldl_insGroup {α : Type} (f : α → Cell → α) (init : α)
    (rows : List (GroupKey × Cell)) :
    ∀ (gs : List (GroupKey × α)) (k : GroupKey),
      lookupG (rows.foldl (fun gs r => insGroup f init gs r.1 r.2) gs) k =
        match lookupG gs k with
        | some a => some (List.foldl f a (groupVals rows k))
        | none =>
            if groupVals rows k = [] then none
            else some (List.foldl f init (groupVals rows k)) := by
  induction rows with
  | nil =>
    intro gs k
    cases h : lookupG gs k <;> simp [groupVals, h]
  | cons r rest ih =>
    intro gs k
    by_cases hk : r.1 = k
    · have hvals : groupVals (r :: rest) k = r.2 :: groupVals rest k := by
        simp [groupVals, hk]
      rw [List.foldl_cons]
      rw [ih (insGroup f init gs r.1 r.2) k]
      rw [hk] at *
      rw [lookupG_insGroup_self]
      cases h : lookupG gs k with
      | none => simp [h, hvals]
      | some a => simp [h, hvals]
    · have hvals : groupVals (r :: rest) k = groupVals rest k := by
        simp [groupVals, hk]
      rw [List.foldl_cons]
      rw [ih (insGroup f init gs r.1 r.2) k]
      rw [lookupG_insGroup_ne f init gs r.1 k r.2 (fun hc => hk hc.symm)]
      rw [hvals]

theorem foldl_sumAdd_of_all_null (a : Cell) (vals : List Cell)
    (h : ∀ v ∈ vals, v = Cell.null) :
    List.foldl sumAdd a vals = a := by
  induction vals generalizing a with
  | nil => rfl
  | cons v rest ih =>
    have hv : v = Cell.null := h v (List.mem_cons_self v rest)
    rw [List.foldl_cons, hv]
    have : sumAdd a Cell.null = a := by simp [sumAdd]
    rw [this]
    exact ih a (fun w hw => h w (List.mem_cons_of_mem v hw))

/-- C10: in a grouped query over at least one input row, a group all of
whose `SUM` arguments are Null finishes at the accumulator's initial
value `Int 0`, not Null; only the implicit group of an aggregate query
over zero rows yields `SUM = Null`. -/
theorem sumAgg_all_null_group (rows : List (GroupKey × Cell))
    (b : Bool) (k : GroupKey)
    (hne : rows ≠ [])
    (hmem : ∃ r ∈ rows, r.1 = k)
    (hnull : ∀ r ∈ rows, r.1 = k → r.2 = Cell.null) :
    lookupG (executeSumAgg rows b) k = some (Cell.int 0) ∧
    executeSumAgg [] false = [([], Cell.null)] := by
  constructor
  · have hcond : ¬ (rows = [] ∧ b = false) := fun hc => hne hc.1
    rw [executeSumAgg, if_neg hcond, foldGroups]
    rw [lookupG_foldl_insGroup sumAdd (Cell.int 0) rows [] k]
    have hvals_ne : groupVals rows k ≠ [] := by
      obtain ⟨r, hr, hrk⟩ := hmem
      intro hc
      have : r.2 ∈ groupVals rows k := by
        simp only [groupVals, List.mem_map]
        exact ⟨r, List.mem_filter.mpr ⟨hr, by simp [hrk]⟩, rfl⟩
      rw [hc] at this
      exact List.not_mem_nil _ this
    have hvals_null : ∀ v ∈ groupVals rows k, v = Cell.null := by
      intro v hv
      simp only [groupVals, List.mem_map] at hv
      obtain ⟨r, hr, hrv⟩ := hv
      have := List.mem_filter.mp hr
      rw [← hrv]
      exact hnull r this.1 (by simpa using this.2)
    simp only [lookupG, if_neg hvals_ne]
    rw [foldl_sumAdd_of_all_null (Cell.int 0) _ hvals_null]
  · rfl

/-- Witness for C10: one group keyed by `[Int 7]` whose only `SUM`
argument is Null sums to `Int 0`. -/
theorem sumAgg_all_null_group_witness :
    lookupG (executeSumAgg [([Cell.int 7], Cell.null)] true) [Cell.int 7] =
      some (Cell.int 0) ∧
    executeSumAgg [] false = [([], Cell.null)] :=
  sumAgg_all_null_group [([Cell.int 7], Cell.null)] true [Cell.int 7]
    (by decide) ⟨([Cell.int 7], Cell.null), by decide⟩ (by decide)

/-- C6 fails on the code: `CountAcc::add` ignores its argument, so
`COUNT(expr)` counts a row whose argument evaluates to Null.  Over one
group with arguments `[Null, Int 1]` the code yields 2, while the claim
(skip Null inputs) requires 1. -/
theorem countExpr_counts_null_row :
    lookupG (executeCountExpr [([], Cell.null), ([], Cell.int 1)]) [] =
      some 2 ∧ ¬ lookupG (executeCountExpr [([], Cell.null), ([], Cell.int 1)]) [] =
      some 1 := by
  constructor
  · rfl
  · decide

/-! Section: Key codec and persisted state (src/store.rs, lines 709-843)

Byte strings (`Vec<u8>`) are `List Nat`; string segments are passed as
their byte lists (UTF-8 modelled at ASCII granularity, which covers
every identifier the claims use).  Byte tags: `d`=100, `t`=116,
`a`=97, `i`=105, `r`=114, `m`=109. -/

/-- Raw byte strings. -/
abbrev Bytes := List Nat

/-- Big-endian 8-byte encoding of a `u64` (`u64::to_be_bytes`). -/
def u64Bytes (n : Nat) : Bytes :=
  [n / 2 ^ 56 % 256, n / 2 ^ 48 % 256, n / 2 ^ 40 % 256, n / 2 ^ 32 % 256,
   n / 2 ^ 24 % 256, n / 2 ^ 16 % 256, n / 2 ^ 8 % 256, n % 256]

/-- Big-endian 8-byte two's-complement encoding of an `i64`
(`i64::to_be_bytes`). -/
def i64Bytes (i : Int) : Bytes :=
  u64Bytes ((i % (2 ^ 64 : Int)).toNat)

/-- Source `u64::from_be_bytes` on an 8-byte list. -/
def beNat (b : Bytes) : Nat :=
  b.foldl (fun a x => a * 256 + x) 0

/-- Source `Store::db_key`: `d\0<name>`. -/
def dbKey (name : Bytes) : Bytes := 100 :: 0 :: name

/-- Source `Store::table_prefix`: `t\0<db>\0`. -/
def tablePref (db : Bytes) : Bytes := 116 :: 0 :: (db ++ [0])

/-- Source `Store::table_key`: `t\0<db>\0<table>`. -/
def tableKey (db table : Bytes) : Bytes := 116 :: 0 :: (db ++ 0 :: table)

/-- Source `Store::auto_inc_prefix`: `ai\0<db>\0`. -/
def autoIncPref (db : Bytes) : Bytes := 97 :: 105 :: 0 :: (db ++ [0])

/-- Source `Store::auto_inc_key`: `ai\0<db>\0<table>`. -/
def autoIncKey (db table : Bytes) : Bytes :=
  97 :: 105 :: 0 :: (db ++ 0 :: table)

/-- Source `Store::row_prefix`: `r\0<db>\0` plus `<table>\0` when the table
segment is non-empty. -/
def rowPref (db table : Bytes) : Bytes :=
  114 :: 0 :: (db ++ 0 :: (if table = [] then [] else table ++ [0]))

/-- Source `Store::row_prefix_mvcc`: row prefix plus the big-endian pk. -/
def rowPrefMvcc (db table : Bytes) (pk : Int) : Bytes :=
  rowPref db table ++ i64Bytes pk

/-- Source `Store::row_key_mvcc`: version key with the inverted writer tx id
(`u64::MAX - tx_id`) appended so prefix scans are newest-first. -/
def rowKeyMvcc (db table : Bytes) (pk : Int) (tx : Nat) : Bytes :=
  rowPrefMvcc db table pk ++ u64Bytes (2 ^ 64 - 1 - tx)

/-- The cell encoding used inside `Store::index_key`: Int as big-endian
8 bytes, Text as its bytes plus a NUL, Null as a single NUL. -/
def encodeCell : Cell → Bytes
  | Cell.int i => i64Bytes i
  | Cell.text s => (s.data.map Char.toNat) ++ [0]
  | Cell.null => [0]

/-- Source `Store::index_key`: `i\0<db>\0<table>\0<index>\0<cell><pk:be64>`. -/
def indexKey (db table idxName : Bytes) (val : Cell) (pk : Int) : Bytes :=
  105 :: 0 :: (db ++ 0 :: (table ++ 0 :: (idxName ++ 0 ::
    (encodeCell val ++ i64Bytes pk))))

/-- The metadata key `m\0max_tx_id`. -/
def maxTxIdKey : Bytes := [109, 0, 109, 97, 120, 95, 116, 120, 95, 105, 100]

/-- Values stored in the two sled trees: empty markers, raw bytes
(watermark, counters), and serialized `Option<Row>` versions. -/
inductive Val where
  | unitv : Val
  | bytes : Bytes → Val
  | rowv : Option Row → Val
  deriving Repr, DecidableEq

/-- One sled tree: an association list of key/value pairs. -/
abbrev KV := List (Bytes × Val)

/-- Byte-string prefix test (`scan_prefix` membership). -/
def isPref : Bytes → Bytes → Bool
  | [], _ => true
  | _ :: _, [] => false
  | a :: p, b :: k => a = b && isPref p k

/-- Source `Tree::get`. -/
def kvGet : KV → Bytes → Option Val
  | [], _ => none
  | (k', v) :: rest, k => if k' = k then some v else kvGet rest k

/-- Source `Tree::insert` / `Batch::insert`: overwrite or append. -/
def kvUpsert : KV → Bytes → Val → KV
  | [], k, v => [(k, v)]
  | (k', v') :: rest, k, v =>
      if k' = k then (k, v) :: rest else (k', v') :: kvUpsert rest k v

/-- The two trees opened by `Store::open`. -/
structure StoreState where
  catalog : KV
  data : KV
  deriving Repr, DecidableEq

/-- Source `Store::drop_database` (src/store.rs, lines 200-240): error when
the marker is absent; otherwise collect-and-remove every catalog key
under the table prefix and the auto-increment prefix, every data key
under the whole-db row prefix, and finally the marker itself.
(Collecting the scanned keys and removing each one is removal of
exactly the keys carrying that prefix, i.e. a filter.) -/
def dropDatabase (st : StoreState) (name : Bytes) :
    Except MiniErr StoreState :=
  match kvGet st.catalog (dbKey name) with
  | none => Except.error MiniErr.notFound
  | some _ =>
      let c1 := st.catalog.filter (fun e => !(isPref (tablePref name) e.1))
      let c2 := c1.filter (fun e => !(isPref (autoIncPref name) e.1))
      let d1 := st.data.filter (fun e => !(isPref (rowPref name []) e.1))
      let c3 := c2.filter (fun e => !(decide (e.1 = dbKey name)))
      Except.ok { catalog := c3, data := d1 }

/-- C7 (amended): when `drop_database` succeeds, no table-definition
key, auto-increment key, or database marker remains in the catalog and
no row-version key remains in the data tree — but every secondary-index
entry (`i\0...`) of the data tree survives untouched: `drop_database`
never scans the `i\0` namespace. -/
theorem dropDatabase_spec (st : StoreState) (name : Bytes)
    (st' : StoreState) (h : dropDatabase st name = Except.ok st') :
    (∀ e ∈ st'.catalog,
      isPref (tablePref name) e.1 = false ∧
      isPref (autoIncPref name) e.1 = false ∧
      e.1 ≠ dbKey name) ∧
    (∀ e ∈ st'.data, isPref (rowPref name []) e.1 = false) ∧
    (∀ e ∈ st.data, isPref [105, 0] e.1 = true → e ∈ st'.data) := by
  unfold dropDatabase at h
  cases hm : kvGet st.catalog (dbKey name) with
  | none =>
    rw [hm] at h
    exact absurd h (by simp)
  | some v =>
    rw [hm] at h
    simp only [Except.ok.injEq] at h
    subst h
    refine ⟨?_, ?_, ?_⟩
    · intro e he
      simp only [List.mem_filter, Bool.not_eq_true', decide_eq_false_iff_not] at he
      obtain ⟨⟨⟨_, h1⟩, h2⟩, h3⟩ := he
      refine ⟨by simpa using h1, by simpa using h2, h3⟩
    · intro e he
      simp only [List.mem_filter, Bool.not_eq_true'] at he
      exact he.2
    · intro e he hidx
      simp only [List.mem_filter, Bool.not_eq_true']
      refine ⟨he, ?_⟩
      cases e1 : e.1 with
      | nil =>
        rw [e1] at hidx
        simp [isPref] at hidx
      | cons b0 rest =>
        rw [e1] at hidx
        have hb0 : b0 = 105 := by
          by_cases hc : 105 = b0
          · exact hc.symm
          · simp [isPref, hc] at hidx
        subst hb0
        simp [rowPref, isPref]

/-- Witness and counterexample input for C7: database `x` (bytes
`[120]`) with its marker, one table definition, an auto-increment
counter, one row version, and one secondary-index entry. -/
def c7Store : StoreState :=
  { catalog := [(dbKey [120], Val.unitv),
                (tableKey [120] [116], Val.unitv),
                (autoIncKey [120] [116], Val.bytes (i64Bytes 2))],
    data := [(rowKeyMvcc [120] [116] 1 1, Val.rowv (some [Cell.int 1])),
             (indexKey [120] [116] [105] (Cell.int 5) 1, Val.unitv)] }

/-- Witness for C7's amended theorem: dropping database `x` from
`c7Store` succeeds and the conclusions hold there. -/
theorem dropDatabase_spec_witness :
    (dropDatabase c7Store [120] =
      Except.ok ⟨[], [(indexKey [120] [116] [105] (Cell.int 5) 1,
        Val.unitv)]⟩) ∧
    ∀ e ∈ (⟨[], [(indexKey [120] [116] [105] (Cell.int 5) 1, Val.unitv)]⟩ :
        StoreState).catalog,
      isPref (tablePref [120]) e.1 = false ∧
      isPref (autoIncPref [120]) e.1 = false ∧
      e.1 ≠ dbKey [120] :=
  ⟨by rfl,
   (dropDatabase_spec c7Store [120] _ (by rfl)).1⟩

/-- C7 as frozen is false: after `drop_database of x-bytes` on `c7Store`, the
secondary-index entry `i\0x\0t\0i\0<cell><pk>` is still present in the
data tree. -/
theorem dropDatabase_keeps_index_entry :
    (dropDatabase c7Store [120]).toOption.map
      (fun s => kvGet s.data (indexKey [120] [116] [105] (Cell.int 5) 1)) =
      some (some Val.unitv) := by
  decide

/-! Section: Commit watermark and recovery (src/store.rs, lines 103-125 and
455-532)

`apply_row_changes_mvcc` writes each change's version key and then
unconditionally inserts `tx_id` at `m\0max_tx_id` in the same batch —
it overwrites whatever watermark was there, with no max.  (Secondary
index maintenance in the same function touches only `i\0` keys and the
catalog; it is independent of the watermark and omitted here.)
`Store::open` reads the watermark back and sets the next tx id to
`stored + 1`. -/

/-- One element of the `changes` iterator of
`apply_row_changes_mvcc`. -/
structure RowChange where
  db : Bytes
  table : Bytes
  pk : Int
  row : Option Row

/-- The data-tree writes of `Store::apply_row_changes_mvcc`: the new
version keys, then the watermark overwrite. -/
def applyRowChangesMvcc (data : KV) (changes : List RowChange) (tx : Nat) :
    KV :=
  let d := changes.foldl
    (fun acc c => kvUpsert acc (rowKeyMvcc c.db c.table c.pk tx)
      (Val.rowv c.row)) data
  kvUpsert d maxTxIdKey (Val.bytes (u64Bytes tx))

/-- The recovery read of `Store::open`: next tx id is the stored
watermark plus one (malformed widths fall back to `[0; 8]`), or 1 when
no watermark exists. -/
def openNextTxId (data : KV) : Nat :=
  match kvGet data maxTxIdKey with
  | some (Val.bytes b) => (if b.length = 8 then beNat b else 0) + 1
  | _ => 1

/-- The data tree after transaction 2 commits a row and then
transaction 1 commits a row (both transactions were started before
either committed, so this commit order is reachable). -/
def c3Data : KV :=
  applyRowChangesMvcc
    (applyRowChangesMvcc [] [⟨[120], [116], 1, some [Cell.int 10]⟩] 2)
    [⟨[120], [116], 2, some [Cell.int 20]⟩] 1

/-- C3 fails on the code: after writer tx 2 commits and then writer
tx 1 commits, the persisted watermark is 1 — less than the committed
writer id 2 — and a reopened store would hand out next tx id 2, which
does not strictly exceed the previously committed writer id 2. -/
theorem maxTxId_watermark_regression :
    kvGet c3Data maxTxIdKey = some (Val.bytes (u64Bytes 1)) ∧
    openNextTxId c3Data = 2 ∧
    ¬ (∀ t ∈ [2, 1], t < openNextTxId c3Data) := by
  refine ⟨by decide, by decide, ?_⟩
  intro h
  have := h 2 (by simp)
  have h2 : openNextTxId c3Data = 2 := by decide
  omega

/-! Section: Auto-increment counter (src/store.rs, lines 547-620)

The counter is stored at `ai\0<db>\0<table>` as 8 big-endian bytes of
an `i64`.  Both `allocate_auto_increment` and
`bump_auto_increment_next` run an `update_and_fetch` closure that
decodes the old bytes (any width other than 8, or an absent key, falls
back to a current value of 1) and writes back new bytes. -/

/-- Source `i64::MAX`. -/
def i64Max : Int := 9223372036854775807

/-- Source `i64::MIN`. -/
def i64Min : Int := -9223372036854775808

/-- Source `i64::from_be_bytes` on a big-endian byte list: two's complement. -/
def i64OfBytes (b : Bytes) : Int :=
  if beNat b < 2 ^ 63 then (beNat b : Int)
  else (beNat b : Int) - 2 ^ 64

/-- Decoding step shared by the two closures: 8 well-formed bytes give
the stored `i64`, anything else is `None`. -/
def aiDecode (b : Bytes) : Option Int :=
  if b.length = 8 then some (i64OfBytes b) else none

/-- The current counter value the closures work with:
`decode(old).unwrap_or(1)`. -/
def aiCur (old : Option Bytes) : Int :=
  (old.bind aiDecode).getD 1

/-- Source `Store::allocate_auto_increment` (src/store.rs, lines 547-580):
the closure writes `cur.checked_add(1)` or falls back to `i64::MAX`
bytes on overflow (for an in-range `i64`, `checked_add(1)` fails
exactly at `i64::MAX`); the caller then re-decodes the stored bytes
and returns `stored_next.saturating_sub(1)`, erroring when the result
is not positive.  Returns the new stored bytes and the outcome. -/
def allocateAutoIncrement (old : Option Bytes) :
    Bytes × Except MiniErr Int :=
  let cur := aiCur old
  let newBytes := if cur = i64Max then i64Bytes i64Max else i64Bytes (cur + 1)
  if newBytes.length = 8 then
    let storedNext := i64OfBytes newBytes
    let allocated := if storedNext = i64Min then i64Min else storedNext - 1
    if allocated ≤ 0 then (newBytes, Except.error MiniErr.invalid)
    else (newBytes, Except.ok allocated)
  else (newBytes, Except.error MiniErr.invalid)

/-- Source `Store::bump_auto_increment_next` (src/store.rs, lines 582-605):
no-op for `next ≤ 0`; otherwise store `max(cur, next)`. -/
def bumpAutoIncrementNext (old : Option Bytes) (next : Int) :
    Option Bytes :=
  if next ≤ 0 then old
  else some (i64Bytes (max (aiCur old) next))

theorem beNat_u64Bytes (n : Nat) (h : n < 2 ^ 64) :
    beNat (u64Bytes n) = n := by
  simp only [u64Bytes, beNat, List.foldl]
  omega

theorem i64Bytes_roundtrip (i : Int) (hlo : i64Min ≤ i) (hhi : i ≤ i64Max) :
    i64OfBytes (i64Bytes i) = i := by
  unfold i64Bytes i64OfBytes
  have hpos : (0:Int) < 2 ^ 64 := by norm_num
  have hmod0 : (0:Int) ≤ i % 2 ^ 64 := Int.emod_nonneg i (by norm_num)
  have hmodlt : i % 2 ^ 64 < 2 ^ 64 := Int.emod_lt_of_pos i hpos
  have htn : ((i % 2 ^ 64).toNat : Int) = i % 2 ^ 64 :=
    Int.toNat_of_nonneg hmod0
  have hlt : (i % 2 ^ 64).toNat < 2 ^ 64 := by omega
  rw [beNat_u64Bytes _ hlt]
  have hcases : i % 2 ^ 64 = i ∨ i % 2 ^ 64 = i + 2 ^ 64 := by
    unfold i64Min at hlo
    unfold i64Max at hhi
    omega
  by_cases hsign : (i % 2 ^ 64).toNat < 2 ^ 63
  · rw [if_pos hsign]
    unfold i64Min at hlo
    unfold i64Max at hhi
    omega
  · rw [if_neg hsign]
    unfold i64Min at hlo
    unfold i64Max at hhi
    omega

/-- C8 (amended): `allocate` reads `cur` (default 1 when the key is
absent or malformed), stores `cur + 1` saturated at `i64::MAX`, and
returns `cur` — except at the saturation boundary, where it stores
`i64::MAX` and returns `i64::MAX - 1`, not `cur`.  `bump_next(n)` with
`n > 0` stores `max(cur, n)`, so the counter value is unchanged when
`n ≤ cur`. -/
theorem autoIncrement_spec (old : Option Bytes) (h1 : 1 ≤ aiCur old) :
    (aiCur old < i64Max →
      allocateAutoIncrement old =
        (i64Bytes (aiCur old + 1), Except.ok (aiCur old))) ∧
    (aiCur old = i64Max →
      allocateAutoIncrement old =
        (i64Bytes i64Max, Except.ok (i64Max - 1))) ∧
    (∀ n, 0 < n →
      bumpAutoIncrementNext old n = some (i64Bytes (max (aiCur old) n))) ∧
    (∀ n, 0 < n → n ≤ aiCur old →
      bumpAutoIncrementNext old n = some (i64Bytes (aiCur old))) := by
  refine ⟨?_, ?_, ?_, ?_⟩
  · intro hmax
    simp only [allocateAutoIncrement]
    rw [if_neg (by omega : ¬ aiCur old = i64Max)]
    have hlen : (i64Bytes (aiCur old + 1)).length = 8 := rfl
    rw [if_pos hlen]
    have hrt : i64OfBytes (i64Bytes (aiCur old + 1)) = aiCur old + 1 := by
      apply i64Bytes_roundtrip
      · unfold i64Min
        omega
      · omega
    rw [hrt]
    rw [if_neg (by unfold i64Min; omega : ¬ aiCur old + 1 = i64Min)]
    rw [if_neg (by omega : ¬ aiCur old + 1 - 1 ≤ 0)]
    have : aiCur old + 1 - 1 = aiCur old := by omega
    rw [this]
  · intro hmax
    simp only [allocateAutoIncrement]
    rw [if_pos hmax]
    have hlen : (i64Bytes i64Max).length = 8 := rfl
    rw [if_pos hlen]
    have hrt : i64OfBytes (i64Bytes i64Max) = i64Max := by
      apply i64Bytes_roundtrip
      · unfold i64Min i64Max
        omega
      · omega
    rw [hrt]
    rw [if_neg (by unfold i64Min i64Max; omega : ¬ i64Max = i64Min)]
    rw [if_neg (by unfold i64Max; omega : ¬ i64Max - 1 ≤ 0)]
  · intro n hn
    unfold bumpAutoIncrementNext
    rw [if_neg (by omega : ¬ n ≤ 0)]
  · intro n hn hle
    unfold bumpAutoIncrementNext
    rw [if_neg (by omega : ¬ n ≤ 0)]
    rw [max_eq_left hle]

/-- Witness for C8's amended theorem at an absent counter
(`cur = 1`). -/
theorem autoIncrement_spec_witness :
    (1 ≤ aiCur none) ∧
    (aiCur none < i64Max →
      allocateAutoIncrement none =
        (i64Bytes (aiCur none + 1), Except.ok (aiCur none))) :=
  ⟨by decide, (autoIncrement_spec none (by decide)).1⟩

/-- C8 as frozen is false at the saturation boundary: with the counter
holding `i64::MAX`, `allocate` returns `i64::MAX - 1`, not the current
value `i64::MAX`. -/
theorem allocate_at_max_returns_max_sub_one :
    aiCur (some (i64Bytes i64Max)) = i64Max ∧
    (allocateAutoIncrement (some (i64Bytes i64Max))).2.toOption =
      some (i64Max - 1) ∧
    ¬ (allocateAutoIncrement (some (i64Bytes i64Max))).2.toOption =
      some (aiCur (some (i64Bytes i64Max))) := by
  decide

/-! Section: INSERT statement staging (src/sql.rs, lines 1752-1902)

`handle_insert` evaluates every VALUES row into a temporary
`stmt_rows : BTreeMap<i64, Row>` and only merges it into the session's
pending writes (or applies it through `apply_row_changes`) after every
row has passed its checks; any error returns before the merge.  The
model fixes one target table: `InsertCtx` carries that table's
auto-increment cell, the session's pending rows for it, and the
committed rows visible under the session's read view (the results of
`get_row_mvcc`).  Row locks always succeed in this single-session
model; a lock conflict in the source errors out of the same pre-merge
loop.  Column-name matching is exact (the source folds ASCII case only
for the primary-key column lookup).  In the Int/Text fragment every
`coerce_cell` arm is the `_ => Ok(cell)` passthrough — the source has
no not-null check in `handle_insert` (unlike `handle_update`). -/

/-- The modelled fragment of `SqlType` (src/model.rs). -/
inductive SqlType where
  | int : SqlType
  | text : SqlType
  deriving Repr, DecidableEq

/-- Source `ColumnDef` (src/model.rs). -/
structure ColumnDef where
  name : String
  ty : SqlType
  nullable : Bool
  deriving Repr, DecidableEq

/-- Source `TableDef` (src/model.rs), restricted to the fields `handle_insert`
reads. -/
structure TableDef where
  columns : List ColumnDef
  primaryKey : String
  autoIncrement : Bool
  deriving Repr, DecidableEq

/-- Source `Cell::as_i64` (src/model.rs). -/
def Cell.asI64 : Cell → Option Int
  | Cell.int i => some i
  | _ => none

/-- Source `coerce_cell` (src/sql.rs, lines 4292-4323) on the Int/Text
fragment: every arm is the passthrough `_ => Ok(cell)`; the error arms
belong to the Float/Date/DateTime targets outside the fragment. -/
def coerceCell (c : Cell) (_ty : SqlType) : Except MiniErr Cell :=
  Except.ok c

/-- Association-list lookup with `Int` keys (`BTreeMap` get). -/
def alookup {α : Type} : List (Int × α) → Int → Option α
  | [], _ => none
  | (k, v) :: rest, pk => if k = pk then some v else alookup rest pk

/-- Association-list insert-or-overwrite with `Int` keys (`BTreeMap`
insert). -/
def aupsert {α : Type} : List (Int × α) → Int → α → List (Int × α)
  | [], k, v => [(k, v)]
  | (k', v') :: rest, k, v =>
      if k' = k then (k, v) :: rest else (k', v') :: aupsert rest k v

/-- Association-list lookup with `String` keys (`BTreeMap<String, Cell>`
get). -/
def slookup : List (String × Cell) → String → Option Cell
  | [], _ => none
  | (k, v) :: rest, name => if k = name then some v else slookup rest name

/-- Association-list insert-or-overwrite with `String` keys. -/
def supsert : List (String × Cell) → String → Cell → List (String × Cell)
  | [], k, v => [(k, v)]
  | (k', v') :: rest, k, v =>
      if k' = k then (k, v) :: rest else (k', v') :: supsert rest k v

/-- The per-table session context `handle_insert` works against. -/
structure InsertCtx where
  auto : Option Bytes
  pending : List (Int × Option Row)
  committed : List (Int × Row)
  deriving Repr, DecidableEq

/-- Source `txn_get_row` (src/sql.rs, lines 4727-4752): the session's pending
write wins; otherwise fall back to the committed row visible under the
read view. -/
def txnGetRow (ctx : InsertCtx) (pk : Int) : Option Row :=
  match alookup ctx.pending pk with
  | some v => v
  | none => alookup ctx.committed pk

/-- Source `txn_scan_rows` (src/sql.rs, lines 4754-4783): overlay the pending
writes on the visible committed rows; pending `Some` upserts, pending
`None` deletes. -/
def txnScanRows (ctx : InsertCtx) : List (Int × Row) :=
  ctx.pending.foldl
    (fun acc pr =>
      match pr.2 with
      | some r => aupsert acc pr.1 r
      | none => acc.filter (fun e => !(decide (e.1 = pr.1))))
    ctx.committed

/-- Source `Store::auto_increment_next` (src/store.rs, lines 607-620): `None`
when the key is absent or not 8 bytes wide. -/
def autoIncNext (auto : Option Bytes) : Option Int :=
  auto.bind aiDecode

/-- Source `i64::saturating_add(1)`. -/
def satAdd1 (i : Int) : Int := if i = i64Max then i64Max else i + 1

/-- Source `max_pk` accumulation of the auto-increment initialisation
(src/sql.rs, lines 1832-1844). -/
def maxPk (rows : List (Int × Row)) : Int :=
  rows.foldl (fun m r => max m r.1) 0

/-- Build one row's `BTreeMap<String, Cell>` from the column list and
the evaluated VALUES tuple. -/
def rowMap (cols : List String) (vals : List Cell) : List (String × Cell) :=
  (cols.zip vals).foldl (fun acc p => supsert acc p.1 p.2) []

/-- The `row_vals` loop: for each table column take the mapped value
(default Null) and coerce it to the column type. -/
def coerceRow (m : List (String × Cell)) :
    List ColumnDef → Except MiniErr (List Cell)
  | [] => Except.ok []
  | cd :: rest =>
      match coerceCell ((slookup m cd.name).getD Cell.null) cd.ty with
      | Except.error e => Except.error e
      | Except.ok c =>
          match coerceRow m rest with
          | Except.error e => Except.error e
          | Except.ok cs => Except.ok (c :: cs)

/-- The one-time auto-increment initialisation of `handle_insert`
(src/sql.rs, lines 1829-1845): when no counter exists yet, seed it with
`max_pk(merged rows).saturating_add(1).max(1)`. -/
def aiInitCtx (ctx : InsertCtx) (aiInit : Bool) : InsertCtx :=
  if aiInit then ctx
  else if autoIncNext ctx.auto = none then
    let seed := max (satAdd1 (maxPk (txnScanRows ctx))) 1
    { ctx with auto := bumpAutoIncrementNext ctx.auto seed }
  else ctx

/-- The `store.allocate_auto_increment(...)?` call of the Null-pk
branch: the counter advances even when allocation then errors. -/
def allocStage (ctx1 : InsertCtx) (rowVals : Row) (pkIndex : Nat) :
    InsertCtx × Bool × Except MiniErr (Int × Row × Bool) :=
  match allocateAutoIncrement ctx1.auto with
  | (newBytes, Except.error e) =>
      ({ ctx1 with auto := some newBytes }, true, Except.error e)
  | (newBytes, Except.ok pk) =>
      ({ ctx1 with auto := some newBytes }, true,
       Except.ok (pk, rowVals.set pkIndex (Cell.int pk), true))

/-- Stage one VALUES row (src/sql.rs, lines 1810-1866 up to the lock):
length check, map build, coercion, primary-key resolution including the
auto-increment initialise/allocate path.  Returns the context (the
counter may have changed even on error), the updated
`auto_inc_initialized` flag, and either `(pk, row_vals, generated)` or
the error. -/
def insertRowStage (td : TableDef) (cols : List String) (pkIndex : Nat)
    (ctx : InsertCtx) (aiInit : Bool) (rowCells : List Cell) :
    InsertCtx × Bool × Except MiniErr (Int × Row × Bool) :=
  if rowCells.length ≠ cols.length then
    (ctx, aiInit, Except.error MiniErr.invalid)
  else
    match coerceRow (rowMap cols rowCells) td.columns with
    | Except.error e => (ctx, aiInit, Except.error e)
    | Except.ok rowVals =>
        match rowVals.get? pkIndex with
        | none => (ctx, aiInit, Except.error MiniErr.invalid)
        | some pkCell =>
            match pkCell.asI64 with
            | some pk => (ctx, aiInit, Except.ok (pk, rowVals, false))
            | none =>
                if pkCell = Cell.null ∧ td.autoIncrement then
                  allocStage (aiInitCtx ctx aiInit) rowVals pkIndex
                else (ctx, aiInit, Except.error MiniErr.invalid)

/-- The statement loop of `handle_insert`: stage each row, bump the
counter for explicit pks on auto-increment tables, then reject
duplicate pks against the earlier rows of the statement
(`stmt_rows.contains_key`) and against `txn_get_row` (pending writes
and committed visible rows).  Passing rows accumulate in
`stmt_rows`. -/
def insertLoop (td : TableDef) (cols : List String) (pkIndex : Nat) :
    InsertCtx → List (List Cell) → List (Int × Row) → Bool →
    Option Int → Nat →
    InsertCtx × Except MiniErr (List (Int × Row) × Option Int × Nat)
  | ctx, [], stmtRows, _aiInit, firstGen, affected =>
      (ctx, Except.ok (stmtRows, firstGen, affected))
  | ctx, rowCells :: rest, stmtRows, aiInit, firstGen, affected =>
      match insertRowStage td cols pkIndex ctx aiInit rowCells with
      | (ctx1, _aiInit1, Except.error e) => (ctx1, Except.error e)
      | (ctx1, aiInit1, Except.ok (pk, rowVals, generated)) =>
          let ctx2 :=
            if td.autoIncrement ∧ generated = false then
              { ctx1 with auto := bumpAutoIncrementNext ctx1.auto (satAdd1 pk) }
            else ctx1
          if (alookup stmtRows pk).isSome ∨ (txnGetRow ctx2 pk).isSome then
            (ctx2, Except.error MiniErr.invalid)
          else
            insertLoop td cols pkIndex ctx2 rest (aupsert stmtRows pk rowVals)
              aiInit1
              (if generated ∧ firstGen = none then some pk else firstGen)
              (affected + 1)

/-- The OK summary of an INSERT (`ExecOutput::Ok`). -/
structure InsOut where
  affected : Nat
  lastInsertId : Int
  deriving Repr, DecidableEq

/-- Source `handle_insert` end to end for one table: resolve the primary-key
column, run the loop, and on success merge `stmt_rows` into the
session's pending writes (the buffered path; the autocommit path hands
the same `stmt_rows` to `apply_row_changes` in one atomic batch). -/
def handleInsert (td : TableDef) (cols : List String) (ctx : InsertCtx)
    (rows : List (List Cell)) : InsertCtx × Except MiniErr InsOut :=
  match td.columns.findIdx? (fun c => c.name = td.primaryKey) with
  | none => (ctx, Except.error MiniErr.invalid)
  | some pkIndex =>
      match insertLoop td cols pkIndex ctx rows [] false none 0 with
      | (ctx1, Except.error e) => (ctx1, Except.error e)
      | (ctx1, Except.ok (stmtRows, firstGen, affected)) =>
          let newPending :=
            stmtRows.foldl (fun p r => aupsert p r.1 (some r.2)) ctx1.pending
          ({ ctx1 with pending := newPending },
           Except.ok { affected := affected,
                       lastInsertId := max (firstGen.getD 0) 0 })

theorem aiInitCtx_preserves (ctx : InsertCtx) (aiInit : Bool) :
    (aiInitCtx ctx aiInit).pending = ctx.pending ∧
    (aiInitCtx ctx aiInit).committed = ctx.committed := by
  unfold aiInitCtx
  constructor <;> (repeat' split) <;> rfl

theorem allocStage_preserves (ctx1 : InsertCtx) (rowVals : Row)
    (pkIndex : Nat) :
    (allocStage ctx1 rowVals pkIndex).1.pending = ctx1.pending ∧
    (allocStage ctx1 rowVals pkIndex).1.committed = ctx1.committed := by
  unfold allocStage
  cases h : allocateAutoIncrement ctx1.auto with
  | mk nb res => cases res <;> exact ⟨rfl, rfl⟩

theorem insertRowStage_preserves (td : TableDef) (cols : List String)
    (pkIndex : Nat) (ctx : InsertCtx) (aiInit : Bool)
    (rowCells : List Cell) :
    (insertRowStage td cols pkIndex ctx aiInit rowCells).1.pending =
      ctx.pending ∧
    (insertRowStage td cols pkIndex ctx aiInit rowCells).1.committed =
      ctx.committed := by
  unfold insertRowStage
  constructor <;> (repeat' split) <;>
    first
      | rfl
      | exact (allocStage_preserves (aiInitCtx ctx aiInit) _ _).1.trans
          (aiInitCtx_preserves ctx aiInit).1
      | exact (allocStage_preserves (aiInitCtx ctx aiInit) _ _).2.trans
          (aiInitCtx_preserves ctx aiInit).2

theorem insertLoop_preserves (td : TableDef) (cols : List String)
    (pkIndex : Nat) (rows : List (List Cell)) :
    ∀ (ctx : InsertCtx) (stmtRows : List (Int × Row)) (aiInit : Bool)
      (firstGen : Option Int) (affected : Nat),
      (insertLoop td cols pkIndex ctx rows stmtRows aiInit firstGen
        affected).1.pending = ctx.pending ∧
      (insertLoop td cols pkIndex ctx rows stmtRows aiInit firstGen
        affected).1.committed = ctx.committed := by
  induction rows with
  | nil =>
    intro ctx stmtRows aiInit firstGen affected
    exact ⟨rfl, rfl⟩
  | cons rowCells rest ih =>
    intro ctx stmtRows aiInit firstGen affected
    have hstage := insertRowStage_preserves td cols pkIndex ctx aiInit rowCells
    unfold insertLoop
    cases hs : insertRowStage td cols pkIndex ctx aiInit rowCells with
    | mk ctx1 rest1 =>
      obtain ⟨aiInit1, res⟩ := rest1
      rw [hs] at hstage
      cases res with
      | error e =>
        exact ⟨hstage.1, hstage.2⟩
      | ok v =>
        obtain ⟨pk, rowVals, generated⟩ := v
        simp only []
        by_cases hbump : td.autoIncrement ∧ generated = false
        · rw [if_pos hbump]
          by_cases hdup : (alookup stmtRows pk).isSome ∨
              (txnGetRow { ctx1 with
                auto := bumpAutoIncrementNext ctx1.auto (satAdd1 pk) } pk).isSome
          · rw [if_pos hdup]
            exact ⟨hstage.1, hstage.2⟩
          · rw [if_neg hdup]
            have := ih { ctx1 with
                auto := bumpAutoIncrementNext ctx1.auto (satAdd1 pk) }
              (aupsert stmtRows pk rowVals) aiInit1
              (if generated ∧ firstGen = none then some pk else firstGen)
              (affected + 1)
            exact ⟨this.1.trans hstage.1, this.2.trans hstage.2⟩
        · rw [if_neg hbump]
          by_cases hdup : (alookup stmtRows pk).isSome ∨
              (txnGetRow ctx1 pk).isSome
          · rw [if_pos hdup]
            exact ⟨hstage.1, hstage.2⟩
          · rw [if_neg hdup]
            have := ih ctx1 (aupsert stmtRows pk rowVals) aiInit1
              (if generated ∧ firstGen = none then some pk else firstGen)
              (affected + 1)
            exact ⟨this.1.trans hstage.1, this.2.trans hstage.2⟩

/-- C4 (amended): whenever `handle_insert` returns an error — a
duplicate primary key against an earlier row of the statement, the
session's pending writes, or a committed visible row; a primary key
that is neither Int nor Null-with-auto-increment; a column/value count
mismatch; or an exhausted auto-increment allocation — no row of the
statement is merged: the session's pending writes and the visible
committed rows are exactly what they were before the statement.  (The
auto-increment counter may have advanced; NULL into a required non-pk
column and non-pk type mismatches are not checked by INSERT.) -/
theorem handleInsert_atomic (td : TableDef) (cols : List String)
    (ctx : InsertCtx) (rows : List (List Cell)) (e : MiniErr)
    (h : (handleInsert td cols ctx rows).2 = Except.error e) :
    (handleInsert td cols ctx rows).1.pending = ctx.pending ∧
    (handleInsert td cols ctx rows).1.committed = ctx.committed := by
  revert h
  unfold handleInsert
  cases hidx : td.columns.findIdx? (fun c => c.name = td.primaryKey) with
  | none =>
    intro _
    exact ⟨rfl, rfl⟩
  | some pkIndex =>
    dsimp only
    have hloop := insertLoop_preserves td cols pkIndex rows ctx [] false none 0
    cases hl : insertLoop td cols pkIndex ctx rows [] false none 0 with
    | mk ctx1 res =>
      rw [hl] at hloop
      cases res with
      | error e' =>
        intro _
        exact ⟨hloop.1, hloop.2⟩
      | ok v =>
        obtain ⟨stmtRows, firstGen, affected⟩ := v
        intro h
        exact Except.noConfusion h

/-- Scenario-4 table `inv(id INT NOT NULL PRIMARY KEY, item TEXT,
qty INT)`. -/
def c4Table : TableDef :=
  { columns := [⟨r"id", SqlType.int, false⟩, ⟨r"item", SqlType.text, true⟩,
                ⟨r"qty", SqlType.int, true⟩],
    primaryKey := r"id",
    autoIncrement := false }

/-- Scenario-4 session: row `(1,'A',1)` committed and visible, nothing
pending. -/
def c4Ctx : InsertCtx :=
  { auto := none,
    pending := [],
    committed := [(1, [Cell.int 1, Cell.text r"A", Cell.int 1])] }

/-- Scenario-4 statement rows:
`VALUES (2,'B',2),(1,'Dup',3),(3,'C',4)`. -/
def c4Rows : List (List Cell) :=
  [[Cell.int 2, Cell.text r"B", Cell.int 2],
   [Cell.int 1, Cell.text r"Dup", Cell.int 3],
   [Cell.int 3, Cell.text r"C", Cell.int 4]]

/-- Witness for C4's amended theorem: the scenario-4 statement errors
on the duplicate pk 1 and leaves the pending and committed rows
untouched. -/
theorem handleInsert_atomic_witness :
    ((handleInsert c4Table [r"id", r"item", r"qty"] c4Ctx c4Rows).2 =
      Except.error MiniErr.invalid) ∧
    (handleInsert c4Table [r"id", r"item", r"qty"] c4Ctx c4Rows).1.pending =
      c4Ctx.pending ∧
    (handleInsert c4Table [r"id", r"item", r"qty"] c4Ctx c4Rows).1.committed =
      c4Ctx.committed :=
  ⟨rfl,
   handleInsert_atomic c4Table [r"id", r"item", r"qty"] c4Ctx c4Rows
     MiniErr.invalid rfl⟩

/-- A table with a required (NOT NULL) non-pk column. -/
def c4NnTable : TableDef :=
  { columns := [⟨r"id", SqlType.int, false⟩, ⟨r"v", SqlType.text, false⟩],
    primaryKey := r"id",
    autoIncrement := false }

/-- An empty session context. -/
def c4EmptyCtx : InsertCtx :=
  { auto := none, pending := [], committed := [] }

/-- C4 as frozen is false: a row that puts NULL into the required
column `v` does not fail any constraint check — the statement succeeds
and the row, Null included, is merged into the pending writes. -/
theorem insert_accepts_null_into_required :
    ((c4NnTable.columns.get? 1).map ColumnDef.nullable = some false) ∧
    (handleInsert c4NnTable [r"id", r"v"] c4EmptyCtx
      [[Cell.int 1, Cell.null]]).2 = Except.ok ⟨1, 0⟩ ∧
    (handleInsert c4NnTable [r"id", r"v"] c4EmptyCtx
      [[Cell.int 1, Cell.null]]).1.pending =
      [(1, some [Cell.int 1, Cell.null])] := by
  exact ⟨rfl, rfl, rfl⟩

end CrabSQL
